import Mathlib

/-!
# Verification of the Photostream virtualization engine

Shallow embedding of the segmented-virtualization manager
(`PhotostreamManager.svelte.ts`), the paginated search segment
(`SearchResultsSegment`), and the simple static manager, together with
proofs and refutations of the specification's claims about them.

Heights, offsets and viewport sizes are JS numbers modelled as rationals.
-/

namespace Photostream

/-- A media asset's immutable descriptor (`TimelineAsset` / `AssetDescriptor`
carry a stable string id). -/
structure Asset where
  id : String
  deriving DecidableEq, Repr

/-- Row-relative geometry assigned to an item by the layout algorithm
(`viewerAsset.position`). -/
structure Position where
  top : ℚ
  left : ℚ
  deriving DecidableEq, Repr

/-- Item wrapper (`ViewerAsset`): one asset plus its mutable layout position,
absent (`undefined` in the source) until the layout algorithm assigns it. -/
structure ViewerAsset where
  asset : Asset
  position : Option Position
  deriving DecidableEq, Repr

/-- One segment (`PhotostreamSegment`, called `month` by the manager): an
ordered run of item wrappers, its load state, and its geometry within the
overall timeline. -/
structure Segment where
  viewerAssets : List ViewerAsset
  isLoaded : Bool
  height : ℚ
  top : ℚ
  intersecting : Bool
  actuallyIntersecting : Bool
  deriving DecidableEq, Repr

/-- Modelled from the spec: `PhotostreamSegment.assets` — the segment's assets
in display order, projected from its item wrappers (the accessor itself lives
in `PhotostreamSegment.svelte.ts`, which only the manager under `src/` calls). -/
def Segment.assets (m : Segment) : List Asset :=
  m.viewerAssets.map (·.asset)

/-- The manager's mutable state (`PhotostreamManager`): the ordered sequence
of segments, viewport/scroll state, layout tunables and lifecycle flags. -/
structure ManagerState where
  months : List Segment
  topSectionHeight : ℚ
  bottomSectionHeight : ℚ
  viewportHeight : ℚ
  viewportWidth : ℚ
  scrollTop : ℚ
  rowHeight : ℚ
  headerHeight : ℚ
  gap : ℚ
  isInitialized : Bool
  updatingIntersections : Bool
  deriving DecidableEq, Repr

/-- `timelineHeight`: derived as the sum of segment heights plus the top
section height (source lines 24–26). -/
def timelineHeight (s : ManagerState) : ℚ :=
  (s.months.map Segment.height).sum + s.topSectionHeight

/-- The exact visible window `[scrollTop, scrollTop + viewportHeight]`. -/
def visibleWindowTop (s : ManagerState) : ℚ := s.scrollTop

/-- Bottom of the exact visible window. -/
def visibleWindowBottom (s : ManagerState) : ℚ := s.scrollTop + s.viewportHeight

/-! ## `setLayoutOptions` (C1)

The source (lines 55–63) is

```
let changed = false;
changed ||= this.#setHeaderHeight(headerHeight);
changed ||= this.#setGap(gap);
changed ||= this.#setRowHeight(rowHeight);
if (changed) { this.refreshLayout(); }
```

JS logical-or assignment `a ||= b` evaluates `b` only when `a` is falsy, so
once one private setter reports a change the remaining setters are skipped.
The embedding keeps that short-circuit. The returned boolean records whether
`refreshLayout()` was invoked. -/

/-- The argument record of `setLayoutOptions` (`TimelineManagerLayoutOptions`). -/
structure LayoutOptions where
  headerHeight : ℚ
  rowHeight : ℚ
  gap : ℚ
  deriving DecidableEq, Repr

/-- `#setHeaderHeight`: writes the field and reports whether it changed. -/
def setHeaderHeight (s : ManagerState) (v : ℚ) : ManagerState × Bool :=
  if s.headerHeight = v then (s, false) else ({ s with headerHeight := v }, true)

/-- `#setGap`: writes the field and reports whether it changed. -/
def setGap (s : ManagerState) (v : ℚ) : ManagerState × Bool :=
  if s.gap = v then (s, false) else ({ s with gap := v }, true)

/-- `#setRowHeight`: writes the field and reports whether it changed. -/
def setRowHeight (s : ManagerState) (v : ℚ) : ManagerState × Bool :=
  if s.rowHeight = v then (s, false) else ({ s with rowHeight := v }, true)

/-- `setLayoutOptions`, with the source's `||=` short-circuit semantics.
Returns the new state and whether a full geometry refresh was triggered. -/
def setLayoutOptions (s : ManagerState) (cfg : LayoutOptions) : ManagerState × Bool :=
  let (s1, c1) := setHeaderHeight s cfg.headerHeight
  if c1 then (s1, true)
  else
    let (s2, c2) := setGap s1 cfg.gap
    if c2 then (s2, true)
    else setRowHeight s2 cfg.rowHeight

/-! ## `retrieveLoadedRange` (C2)

The source (lines 267–289) walks the segments in order with a `collecting`
flag, returning `[]` as soon as an unloaded segment is entered while
collecting, pushing every asset seen while collecting, and returning the
accumulated range as soon as the end id is seen. -/

/-- The inner `for (const asset of month.assets)` loop: `.inl r` models the
early `return` with result `r`; `.inr (collecting, range)` models falling
through to the next segment with the updated loop state. -/
def scanAssets (startId endId : String) :
    List Asset → Bool → List Asset → List Asset ⊕ Bool × List Asset
  | [], collecting, range => .inr (collecting, range)
  | a :: rest, collecting, range =>
    let collecting := collecting || a.id = startId
    let range := if collecting then range ++ [a] else range
    if a.id = endId then .inl range
    else scanAssets startId endId rest collecting range

/-- The outer `for (const month of this.months)` loop of
`retrieveLoadedRange`, including the `collecting && !month.isLoaded` early
exit. -/
def scanMonths (startId endId : String) :
    List Segment → Bool → List Asset → List Asset
  | [], _, range => range
  | m :: rest, collecting, range =>
    if collecting ∧ ¬m.isLoaded then []
    else
      match scanAssets startId endId m.assets collecting range with
      | .inl r => r
      | .inr (c, r) => scanMonths startId endId rest c r

/-- `retrieveLoadedRange(start, end)`. -/
def retrieveLoadedRange (s : ManagerState) (startId endId : String) : List Asset :=
  scanMonths startId endId s.months false []

/-- All assets of the manager in timeline order. -/
def allAssets (s : ManagerState) : List Asset :=
  s.months.flatMap Segment.assets

/-- Reference description of the range extraction on the flattened timeline:
locate the first occurrence of each id; if the start id is absent, or the end
id occurs strictly before it, the range is empty; otherwise it runs from the
start id through the first occurrence of the end id at or after it, or to the
end of the list when the end id is absent. Stated with `findIdx?`/`drop`/`take`
so it is independent of the source's loop. -/
def refRange (l : List Asset) (startId endId : String) : List Asset :=
  match l.findIdx? (fun x => x.id = startId) with
  | none => []
  | some i =>
    match l.findIdx? (fun x => x.id = endId) with
    | none => l.drop i
    | some j => if j < i then [] else (l.drop i).take (j - i + 1)

/-! ## `removeAssets` (C5)

The source (lines 295–322) scans each segment's `viewerAssets` from the last
index down to 0, splicing out every asset whose id is in the input set and
pushing the removed id; after each segment it calls `segment.layout()` when
the (global) list of removed ids is non-empty, refreshes viewport geometry
once at the end when anything was removed, and returns the input ids not
removed anywhere. -/

/-- The reverse-index splice scan over one segment's item wrappers: returns
the surviving wrappers (in order) and the removed ids in the order they were
pushed (descending index, i.e. reversed display order). -/
def removeScan (assetIds : List String) :
    List ViewerAsset → List ViewerAsset × List String
  | [] => ([], [])
  | v :: rest =>
    let (rest', removed) := removeScan assetIds rest
    if v.asset.id ∈ assetIds then (rest', removed ++ [v.asset.id])
    else (v :: rest', removed)

/-- Result of `removeAssets`: the updated segments, the accumulated removed
ids, one flag per segment recording whether its `layout()` ran, whether the
final geometry refresh ran, and the returned not-found ids. -/
structure RemoveResult where
  months : List Segment
  removedIds : List String
  laidOut : List Bool
  refreshed : Bool
  notFound : List String
  deriving Repr

/-- The per-segment loop of `removeAssets`, threading the global
`removedIds` accumulator (the source's `if (removedIds.length > 0)` layout
check reads this global list, not the segment's own removals). -/
def removeLoop (assetIds : List String) :
    List Segment → List String → List Segment × List String × List Bool
  | [], removed => ([], removed, [])
  | seg :: rest, removed =>
    let (vas', segRemoved) := removeScan assetIds seg.viewerAssets
    let removed := removed ++ segRemoved
    let laid := removed.length > 0
    let (rest', removed', laids) := removeLoop assetIds rest removed
    ({ seg with viewerAssets := vas' } :: rest', removed', laid :: laids)

/-- `removeAssets(assetIds)`. -/
def removeAssets (s : ManagerState) (assetIds : List String) : RemoveResult :=
  let (months', removed, laids) := removeLoop assetIds s.months []
  { months := months'
    removedIds := removed
    laidOut := laids
    refreshed := removed.length > 0
    notFound := assetIds.filter (fun id => ¬id ∈ removed) }

/-! ## `getMaxScroll` / `getMaxScrollPercent` (C9), source lines 258–265. -/

/-- `getMaxScroll()`. -/
def getMaxScroll (s : ManagerState) : ℚ :=
  s.topSectionHeight + s.bottomSectionHeight + (timelineHeight s - s.viewportHeight)

/-- `getMaxScrollPercent()` (division by zero in `ℚ` yields 0, matching no
reachable configuration of interest; the source divides JS numbers). -/
def getMaxScrollPercent (s : ManagerState) : ℚ :=
  let totalHeight := timelineHeight s + s.bottomSectionHeight + s.topSectionHeight
  (totalHeight - s.viewportHeight) / totalHeight

/-- Sum of the segments' heights (the "total segment height" of the claim,
exclusive of the top section). -/
def totalSegmentHeight (s : ManagerState) : ℚ :=
  (s.months.map Segment.height).sum

/-- The claim's reading of "the gaps between segments": one layout gap
between each adjacent pair of segments. -/
def interSegmentGaps (s : ManagerState) : ℚ :=
  (s.months.length - 1 : ℕ) * s.gap

/-! ## `updateIntersections` (C8), source lines 152–163. -/

/-- Modelled from the spec: `updateIntersectionMonthGroup` (in
`timeline-manager/internal/intersection-support.svelte`, outside `src/`) —
sets the segment's two visibility flags from overlap with the expanded
window (prefetch margins) and with the exact visible window. -/
def updateIntersectionMonthGroup (winTop winBottom expandTop expandBottom : ℚ)
    (m : Segment) : Segment :=
  { m with
    intersecting :=
      decide (m.top ≤ winBottom + expandBottom ∧ winTop - expandTop ≤ m.top + m.height)
    actuallyIntersecting :=
      decide (m.top ≤ winBottom ∧ winTop ≤ m.top + m.height) }

/-- Prefetch margins (`TUNABLES.TIMELINE`), modelled from the spec as
asymmetric expansion constants. -/
def INTERSECTION_EXPAND_TOP : ℚ := 500

/-- Bottom prefetch margin. -/
def INTERSECTION_EXPAND_BOTTOM : ℚ := 800

/-- `updateIntersections()`: suppressed when the busy flag is set, the
manager is uninitialized, or the visible window is empty; otherwise sets the
busy flag, rescans every segment, and clears the flag. -/
def updateIntersections (s : ManagerState) : ManagerState :=
  if s.updatingIntersections ∨ ¬s.isInitialized
      ∨ visibleWindowBottom s = visibleWindowTop s then
    s
  else
    let busy := { s with updatingIntersections := true }
    let scanned :=
      { busy with
        months := busy.months.map
          (updateIntersectionMonthGroup (visibleWindowTop s) (visibleWindowBottom s)
            INTERSECTION_EXPAND_TOP INTERSECTION_EXPAND_BOTTOM) }
    { scanned with updatingIntersections := false }

/-! ## `SearchResultsSegment` (C4, C6, C10)

The paginated-query segment keeps a current and next page token; `fetch()`
is a no-op without a current token, otherwise it issues one page request,
stores the returned next-page token and appends the returned items.
The external query capability is abstracted as
`client : String → List Asset × Option String` (page token ↦ items and
next-page token), per the spec's external-interface contract. -/

/-- The mutable state of one `SearchResultsSegment`. -/
structure SearchSegmentState where
  currentPage : Option String
  nextPage : Option String
  viewerAssets : List ViewerAsset
  deriving DecidableEq, Repr

/-- `SearchResultsSegment.fetch()`: no-op on a null current page; otherwise
one request for the current page, whose items are appended (wrapped with no
position yet, as `new ViewerAsset(...)` leaves layout unassigned) and whose
next-page token is stored. The returned boolean records whether a page
request was issued. -/
def fetch (client : String → List Asset × Option String)
    (st : SearchSegmentState) : SearchSegmentState × Bool :=
  match st.currentPage with
  | none => (st, false)
  | some p =>
    let (items, next) := client p
    ({ st with
        nextPage := next
        viewerAssets := st.viewerAssets ++ items.map (fun a => ⟨a, none⟩) },
      true)

/-- Modelled from the spec: `reload(false)` (in `PhotostreamSegment.svelte.ts`,
outside `src/`) schedules a non-cancelable re-run of the segment's load,
which re-executes `fetch()`. -/
def reload (client : String → List Asset × Option String)
    (st : SearchSegmentState) : SearchSegmentState × Bool :=
  fetch client st

/-- `loadNextPage()`: advances only when a next-page token exists and differs
from the current page token, then reloads non-cancelably. -/
def loadNextPage (client : String → List Asset × Option String)
    (st : SearchSegmentState) : SearchSegmentState × Bool :=
  match st.nextPage with
  | none => (st, false)
  | some np =>
    if st.currentPage = some np then (st, false)
    else reload client { st with currentPage := some np }

/-- `SearchResultsSegment.findAssetAbsolutePosition(assetId)`: -1 when the id
is absent, -1 (with a console warning) when the item has no layout position
yet, otherwise segment top + row-relative top + the manager's header height. -/
def findAssetAbsolutePosition (segTop headerHeight : ℚ)
    (viewerAssets : List ViewerAsset) (assetId : String) : ℚ :=
  match viewerAssets.find? (fun v => v.asset.id = assetId) with
  | none => -1
  | some va =>
    match va.position with
    | none => -1
    | some pos => segTop + pos.top + headerHeight

/-! ## Segment load state machine (C7)

Modelled from the spec: `PhotostreamSegment.load(cancelable)` and the backing
`CancellableTask` live outside `src/`. Per the spec, `load` is idempotent — a
call while `Loading` or after `Loaded` is a no-op, decided by whether the
backing load task has already executed. The manager's `loadSegment`
(source lines 217–235) additionally returns early when
`segment.loader?.executed` is already true. -/

/-- Load states of a segment's backing task. -/
inductive LoadState where
  | notLoaded
  | loading
  | loaded
  deriving DecidableEq, Repr

/-- Modelled from the spec: the segment's backing load task — its state
machine plus how many fetches it has issued. -/
structure SegLoad where
  state : LoadState
  executed : Bool
  fetchCount : ℕ
  deriving DecidableEq, Repr

/-- Modelled from the spec: one call of `loadSegment` on a segment up to its
suspension point — a no-op when the loader has already executed or a load is
in flight; otherwise it starts the load, issuing exactly one fetch. -/
def loadSegmentCall (g : SegLoad) : SegLoad :=
  if g.executed then g
  else if g.state = LoadState.loading then g
  else { g with state := LoadState.loading, fetchCount := g.fetchCount + 1 }

/-- Modelled from the spec: the in-flight fetch resolving — the load task
completes and is marked executed. -/
def loadResolve (g : SegLoad) : SegLoad :=
  { g with state := LoadState.loaded, executed := true }

/-! ## Concrete fixtures -/

/-- A manager state with the source's construction-time defaults
(`topSectionHeight = 0`, `bottomSectionHeight = 60`, `rowHeight = 235`,
`headerHeight = 48`, `gap = 12`) over the given segments. -/
def mkState (months : List Segment) : ManagerState :=
  { months := months
    topSectionHeight := 0
    bottomSectionHeight := 60
    viewportHeight := 0
    viewportWidth := 0
    scrollTop := 0
    rowHeight := 235
    headerHeight := 48
    gap := 12
    isInitialized := false
    updatingIntersections := false }

/-- A loaded segment of height 100 holding the given assets, positionless. -/
def mkSegment (ids : List String) : Segment :=
  { viewerAssets := ids.map (fun i => ⟨⟨i⟩, none⟩)
    isLoaded := true
    height := 100
    top := 0
    intersecting := false
    actuallyIntersecting := false }

/-- The scenario query client for pagination: pages "1", "2", "3" return one
asset each with next-page tokens "2", "3", null respectively. -/
def pageClient (p : String) : List Asset × Option String :=
  if p = "1" then ([⟨"a1"⟩], some "2")
  else if p = "2" then ([⟨"a2"⟩], some "3")
  else if p = "3" then ([⟨"a3"⟩], none)
  else ([], none)

/-- The paginated segment as constructed for page "1", before its initial
load. -/
def pageSegment0 : SearchSegmentState :=
  { currentPage := some "1", nextPage := none, viewerAssets := [] }

/-- The segment after its initial (`loadSegment`-triggered) fetch of page 1. -/
def pageSegment1 : SearchSegmentState := (fetch pageClient pageSegment0).1

/-! ## C1 — `setLayoutOptions` is not atomic -/

/-- C1: `setLayoutOptions` does not apply the three options atomically.
From the default state (headerHeight 48, rowHeight 235, gap 12), a call
supplying `{headerHeight := 100, rowHeight := 300, gap := 20}` commits only
the header height: the `||=` short-circuit skips `#setGap` and
`#setRowHeight` once `#setHeaderHeight` reports a change, so the stored gap
and row height keep their old values while a refresh is still triggered —
contradicting "after the call all three stored values equal the supplied
values". -/
theorem C1_setLayoutOptions_not_atomic :
    (setLayoutOptions (mkState []) ⟨100, 300, 20⟩).1.headerHeight = 100 ∧
    (setLayoutOptions (mkState []) ⟨100, 300, 20⟩).1.gap = 12 ∧
    (setLayoutOptions (mkState []) ⟨100, 300, 20⟩).1.rowHeight = 235 ∧
    (setLayoutOptions (mkState []) ⟨100, 300, 20⟩).2 = true := by
  refine ⟨?_, ?_, ?_, ?_⟩ <;> rfl

/-! ## C3 — total height accounting -/

/-- C3 counterexample: with two segments of height 100 and the default gap
of 12, `sum(height) + gaps` is 212 while `timelineHeight − topSectionHeight`
is 200 — the claimed identity with a separate inter-segment gap term fails. -/
theorem C3_counterexample :
    totalSegmentHeight (mkState [mkSegment ["x"], mkSegment ["y"]]) +
        interSegmentGaps (mkState [mkSegment ["x"], mkSegment ["y"]]) ≠
      timelineHeight (mkState [mkSegment ["x"], mkSegment ["y"]]) -
        (mkState [mkSegment ["x"], mkSegment ["y"]]).topSectionHeight := by
  simp only [totalSegmentHeight, interSegmentGaps, timelineHeight, mkState, mkSegment,
    List.map_cons, List.map_nil, List.sum_cons, List.sum_nil, List.length_cons,
    List.length_nil]
  norm_num

/-- C3 (amended): in every manager state the sum of the segments' heights
equals `timelineHeight − topSectionHeight` exactly; there is no separate
inter-segment gap term (any gap spacing is already inside each segment's own
height). -/
theorem C3_height_invariant (s : ManagerState) :
    totalSegmentHeight s = timelineHeight s - s.topSectionHeight := by
  simp [totalSegmentHeight, timelineHeight]

/-! ## C6 — fetch is append-only -/

/-- C6: every fetch of the paginated-query segment leaves the prior item
sequence as an initial run of the new one — items are only appended, never
replaced, removed or reordered. -/
theorem C6_fetch_append_only (client : String → List Asset × Option String)
    (st : SearchSegmentState) :
    ∃ t, (fetch client st).1.viewerAssets = st.viewerAssets ++ t := by
  match h : st.currentPage with
  | none => exact ⟨[], by simp [fetch, h]⟩
  | some p => exact ⟨(client p).1.map (fun a => ⟨a, none⟩), by simp [fetch, h]⟩

/-! ## C7 — loadSegment idempotence -/

/-- C7: `loadSegment` issues at most one fetch per segment: a call is a no-op
when the backing load task has already executed or a load is in flight, and
in the concrete two-call scenarios (second call while the first is in flight,
or after the load resolved) exactly one fetch is issued. -/
theorem C7_loadSegment_idempotent :
    (∀ g : SegLoad, g.executed = true → loadSegmentCall g = g) ∧
    (∀ g : SegLoad, g.state = LoadState.loading → loadSegmentCall g = g) ∧
    (loadSegmentCall ⟨LoadState.notLoaded, false, 0⟩).fetchCount = 1 ∧
    loadSegmentCall (loadSegmentCall ⟨LoadState.notLoaded, false, 0⟩) =
      loadSegmentCall ⟨LoadState.notLoaded, false, 0⟩ ∧
    (loadSegmentCall (loadResolve (loadSegmentCall ⟨LoadState.notLoaded, false, 0⟩))).fetchCount = 1 := by
  refine ⟨?_, ?_, by decide, by decide, by decide⟩
  · intro g h
    simp [loadSegmentCall, h]
  · intro g h
    simp [loadSegmentCall, h]

/-- C7 witness: a loader already executed (state loaded, one fetch issued) is
left untouched by a further `loadSegment` call. -/
theorem C7_witness :
    loadSegmentCall ⟨LoadState.loaded, true, 1⟩ = ⟨LoadState.loaded, true, 1⟩ :=
  C7_loadSegment_idempotent.1 ⟨LoadState.loaded, true, 1⟩ rfl

/-! ## C8 — intersection scan re-entrancy guard -/

/-- C8: an `updateIntersections` invocation that arrives while the busy flag
is set is a silent no-op — the state is returned unchanged — and whenever a
scan actually runs (flag initially clear) the busy flag is clear again once
it finishes. -/
theorem C8_reentrancy_guard :
    (∀ s : ManagerState, s.updatingIntersections = true →
      updateIntersections s = s) ∧
    (∀ s : ManagerState, s.updatingIntersections = false →
      (updateIntersections s).updatingIntersections = false) := by
  constructor
  · intro s h
    simp [updateIntersections, h]
  · intro s h
    simp only [updateIntersections]
    split
    · exact h
    · rfl

/-- An initialized one-segment manager mid-scan: busy flag set, 10-high
viewport. -/
def busyScanState : ManagerState :=
  { mkState [mkSegment ["x"]] with isInitialized := true, viewportHeight := 10, updatingIntersections := true }

/-- The same manager with the busy flag clear. -/
def idleScanState : ManagerState :=
  { mkState [mkSegment ["x"]] with isInitialized := true, viewportHeight := 10 }

/-- C8 witness: on an initialized state mid-scan (busy flag set, nonempty
window), the inner invocation changes nothing; and an outer scan from the
same state with the flag clear ends with the flag clear. -/
theorem C8_witness :
    updateIntersections busyScanState = busyScanState ∧
    (updateIntersections idleScanState).updatingIntersections = false :=
  ⟨C8_reentrancy_guard.1 _ rfl, C8_reentrancy_guard.2 _ rfl⟩

/-! ## C9 — `getMaxScroll` double-counts the top section -/

/-- A one-segment manager with a non-trivial top section: top 10, bottom 60,
segment height 100, viewport height 50. -/
def topHeavyState : ManagerState :=
  { mkState [mkSegment ["x"]] with topSectionHeight := 10, viewportHeight := 50 }

/-- C9 counterexample: with a 10-high top section, a 60-high bottom section,
one segment of height 100 and a 50-high viewport, the code returns
`10 + 60 + (110 − 50) = 130`, not the claimed
`(topSectionHeight + bottomSectionHeight) + total segment height − viewport
= 120`: `timelineHeight` already contains the top section, so it is counted
twice. -/
theorem C9_counterexample :
    getMaxScroll topHeavyState ≠
      topHeavyState.topSectionHeight + topHeavyState.bottomSectionHeight +
        totalSegmentHeight topHeavyState - topHeavyState.viewportHeight := by
  simp only [getMaxScroll, totalSegmentHeight, timelineHeight, topHeavyState, mkState,
    mkSegment, List.map_cons, List.map_nil, List.sum_cons, List.sum_nil]
  norm_num

/-- C9 (amended): `getMaxScroll` returns the footer chrome plus the total
segment height plus **twice** the top section height minus the viewport
height (the top section is part of `timelineHeight` and is added again), and
`getMaxScrollPercent` is exactly that same extent divided by the total height
`totalSegmentHeight + 2·topSectionHeight + bottomSectionHeight`. -/
theorem C9_maxScroll_formula (s : ManagerState) :
    getMaxScroll s =
        totalSegmentHeight s + 2 * s.topSectionHeight + s.bottomSectionHeight -
          s.viewportHeight ∧
    getMaxScrollPercent s =
        getMaxScroll s /
          (totalSegmentHeight s + 2 * s.topSectionHeight + s.bottomSectionHeight) := by
  have h : getMaxScroll s =
      totalSegmentHeight s + 2 * s.topSectionHeight + s.bottomSectionHeight -
        s.viewportHeight := by
    simp only [getMaxScroll, timelineHeight, totalSegmentHeight]
    ring
  refine ⟨h, ?_⟩
  have ht : timelineHeight s + s.bottomSectionHeight + s.topSectionHeight =
      totalSegmentHeight s + 2 * s.topSectionHeight + s.bottomSectionHeight := by
    simp only [timelineHeight, totalSegmentHeight]
    ring
  have hn : timelineHeight s + s.bottomSectionHeight + s.topSectionHeight -
      s.viewportHeight = getMaxScroll s := by
    simp only [getMaxScroll, timelineHeight]
    ring
  simp only [getMaxScrollPercent]
  rw [hn, ht]

/-! ## C10 — `findAssetAbsolutePosition` sentinel behavior -/

/-- C10: `findAssetAbsolutePosition` returns −1 when no item with the id
exists, returns −1 when the (first) matching item exists but has no layout
position assigned yet, and otherwise returns segment top + the item's
row-relative top + the manager's header height. -/
theorem C10_findAssetAbsolutePosition (segTop hh : ℚ)
    (vas : List ViewerAsset) (assetId : String) :
    ((∀ v ∈ vas, v.asset.id ≠ assetId) →
      findAssetAbsolutePosition segTop hh vas assetId = -1) ∧
    (∀ v, vas.find? (fun w => w.asset.id = assetId) = some v →
      (v.position = none → findAssetAbsolutePosition segTop hh vas assetId = -1) ∧
      (∀ pos, v.position = some pos →
        findAssetAbsolutePosition segTop hh vas assetId = segTop + pos.top + hh)) := by
  constructor
  · intro habs
    have hnone : vas.find? (fun w => w.asset.id = assetId) = none := by
      rw [List.find?_eq_none]
      intro v hv
      simpa using habs v hv
    simp [findAssetAbsolutePosition, hnone]
  · intro v hfind
    constructor
    · intro hpos
      simp [findAssetAbsolutePosition, hfind, hpos]
    · intro pos hpos
      simp [findAssetAbsolutePosition, hfind, hpos]

/-- C10 witness: on a segment holding one positioned item and one
positionless item, the three cases evaluate as stated: a missing id yields
−1, the positionless item yields −1, and the positioned item at row-relative
top 5 under segment top 20 and header height 48 yields 73. -/
theorem C10_witness :
    findAssetAbsolutePosition 20 48 [⟨⟨"a"⟩, some ⟨5, 0⟩⟩, ⟨⟨"b"⟩, none⟩] "zz" = -1 ∧
    findAssetAbsolutePosition 20 48 [⟨⟨"a"⟩, some ⟨5, 0⟩⟩, ⟨⟨"b"⟩, none⟩] "b" = -1 ∧
    findAssetAbsolutePosition 20 48 [⟨⟨"a"⟩, some ⟨5, 0⟩⟩, ⟨⟨"b"⟩, none⟩] "a" = 20 + 5 + 48 := by
  refine ⟨?_, ?_, ?_⟩
  · exact (C10_findAssetAbsolutePosition 20 48 _ "zz").1 (by decide)
  · exact ((C10_findAssetAbsolutePosition 20 48 _ "b").2 ⟨⟨"b"⟩, none⟩ (by rfl)).1 rfl
  · exact ((C10_findAssetAbsolutePosition 20 48 _ "a").2 ⟨⟨"a"⟩, some ⟨5, 0⟩⟩ (by rfl)).2 ⟨5, 0⟩ rfl

/-! ## C4 — pagination guard and token sequence -/

/-- C4: `loadNextPage` issues a fetch only when a next-page token exists and
differs from the current page token; and for the query client returning
next-page tokens "2", "3", null in sequence, the first two `loadNextPage`
calls after the initial load each fetch, the token is then null, and the
third call issues no fetch and changes nothing. -/
theorem C4_loadNextPage_pagination :
    (∀ (client : String → List Asset × Option String) (st : SearchSegmentState),
        (loadNextPage client st).2 = true →
        ∃ np, st.nextPage = some np ∧ st.currentPage ≠ some np) ∧
    (loadNextPage pageClient pageSegment1).2 = true ∧
    (loadNextPage pageClient (loadNextPage pageClient pageSegment1).1).2 = true ∧
    (loadNextPage pageClient (loadNextPage pageClient pageSegment1).1).1.nextPage = none ∧
    (loadNextPage pageClient
        (loadNextPage pageClient (loadNextPage pageClient pageSegment1).1).1).2 = false ∧
    (loadNextPage pageClient
        (loadNextPage pageClient (loadNextPage pageClient pageSegment1).1).1).1 =
      (loadNextPage pageClient (loadNextPage pageClient pageSegment1).1).1 := by
  refine ⟨?_, by decide, by decide, by decide, by decide, by decide⟩
  intro client st h
  cases hnp : st.nextPage with
  | none => simp [loadNextPage, hnp] at h
  | some np =>
    by_cases hc : st.currentPage = some np
    · simp [loadNextPage, hnp, hc] at h
    · exact ⟨np, rfl, hc⟩

/-- C4 witness: the guard applied to the concrete first advance — the segment
freshly loaded from page "1" holds next-page token "2", which differs from
its current token. -/
theorem C4_witness :
    ∃ np, pageSegment1.nextPage = some np ∧ pageSegment1.currentPage ≠ some np :=
  C4_loadNextPage_pagination.1 pageClient pageSegment1 (by decide)

/-! ## C2 — `retrieveLoadedRange` lemmas -/

/-- Stepping `scanAssets` over a concatenation: the first block either
returns early or hands its loop state to the second block. -/
theorem scanAssets_append (a b : String) (l₁ l₂ : List Asset) (c : Bool) (r : List Asset) :
    scanAssets a b (l₁ ++ l₂) c r =
      (match scanAssets a b l₁ c r with
       | .inl res => .inl res
       | .inr (c', r') => scanAssets a b l₂ c' r') := by
  induction l₁ generalizing c r with
  | nil => simp [scanAssets]
  | cons x xs ih =>
    by_cases hb : x.id = b
    · simp [scanAssets, hb]
    · simp only [List.cons_append, scanAssets, hb, decide_eq_false, if_false]
      exact ih _ _

/-- `scanAssets` with the collecting flag already set: every asset is
appended until the first asset with the end id (inclusive), where the scan
returns early; without an end id the whole block is appended. -/
theorem scanAssets_collecting (a b : String) (l : List Asset) (r : List Asset) :
    scanAssets a b l true r =
      (match l.findIdx? (fun x => x.id = b) with
       | none => .inr (true, r ++ l)
       | some j => .inl (r ++ l.take (j + 1))) := by
  induction l generalizing r with
  | nil => simp [scanAssets]
  | cons x xs ih =>
    by_cases hb : x.id = b
    · simp [scanAssets, hb]
    · simp only [scanAssets, Bool.true_or, if_true, List.findIdx?_cons, hb,
        decide_eq_false, if_false, List.findIdx?_start_succ, Nat.zero_add]
      rw [ih]
      cases hfb : xs.findIdx? (fun x => decide (x.id = b)) with
      | none => simp
      | some j => simp [List.take_succ_cons, List.append_assoc]

/-- `scanAssets` from an idle collecting flag, described through the first
indices of the start and end ids on the block. -/
theorem scanAssets_idle (a b : String) (l : List Asset) (r : List Asset) :
    scanAssets a b l false r =
      (match l.findIdx? (fun x => x.id = a), l.findIdx? (fun x => x.id = b) with
       | none, none => .inr (false, r)
       | none, some _ => .inl r
       | some i, none => .inr (true, r ++ l.drop i)
       | some i, some j =>
         if j < i then .inl r else .inl (r ++ (l.drop i).take (j - i + 1))) := by
  induction l generalizing r with
  | nil => simp [scanAssets]
  | cons x xs ih =>
    by_cases ha : x.id = a
    · by_cases hb : x.id = b
      · simp only [scanAssets, decide_eq_true ha, decide_eq_true hb, Bool.false_or,
          List.findIdx?_cons]
        rw [if_pos hb]
        simp
      · simp only [scanAssets, decide_eq_true ha, decide_eq_false hb, Bool.false_or,
          List.findIdx?_cons, List.findIdx?_start_succ, Nat.zero_add]
        rw [if_neg hb, scanAssets_collecting]
        cases hfb : xs.findIdx? (fun x => decide (x.id = b)) with
        | none => simp
        | some j => simp [List.take_succ_cons, List.append_assoc]
    · by_cases hb : x.id = b
      · simp only [scanAssets, decide_eq_false ha, decide_eq_true hb, Bool.or_false,
          List.findIdx?_cons, List.findIdx?_start_succ, Nat.zero_add]
        rw [if_pos hb]
        cases hfa : xs.findIdx? (fun x => decide (x.id = a)) with
        | none => simp
        | some i => simp
      · simp only [scanAssets, decide_eq_false ha, decide_eq_false hb, Bool.or_false,
          List.findIdx?_cons, List.findIdx?_start_succ, Nat.zero_add]
        rw [if_neg hb, ih]
        cases hfa : xs.findIdx? (fun x => decide (x.id = a)) with
        | none =>
          cases hfb : xs.findIdx? (fun x => decide (x.id = b)) with
          | none => simp
          | some j => simp
        | some i =>
          cases hfb : xs.findIdx? (fun x => decide (x.id = b)) with
          | none => simp
          | some j =>
            simp only [Option.map_some', Nat.add_lt_add_iff_right,
              List.drop_succ_cons, Nat.succ_sub_succ]
            by_cases hji : j < i <;> simp [hji]

/-- Inversion for a block that fell through without an early return: it held
no asset with the end id, and the outgoing collecting flag is the incoming
one extended by whether the start id occurred in the block. -/
theorem scanAssets_inr (a b : String) (l : List Asset) (c : Bool) (r : List Asset)
    (p : Bool × List Asset) (h : scanAssets a b l c r = .inr p) :
    (∀ x ∈ l, ¬x.id = b) ∧ p.1 = (c || l.any (fun x => x.id = a)) := by
  induction l generalizing c r with
  | nil =>
    simp only [scanAssets] at h
    obtain rfl : (c, r) = p := by injection h
    simp
  | cons x xs ih =>
    by_cases hb : x.id = b
    · have hstep : scanAssets a b (x :: xs) c r =
          .inl (if (c || decide (x.id = a)) = true then r ++ [x] else r) := by
        simp only [scanAssets]
        rw [if_pos hb]
      rw [hstep] at h
      exact Sum.noConfusion h
    · have hstep : scanAssets a b (x :: xs) c r =
          scanAssets a b xs (c || decide (x.id = a))
            (if (c || decide (x.id = a)) = true then r ++ [x] else r) := by
        simp only [scanAssets]
        rw [if_neg hb]
      rw [hstep] at h
      obtain ⟨h1, h2⟩ := ih _ _ h
      refine ⟨?_, ?_⟩
      · intro y hy
        rcases List.mem_cons.mp hy with rfl | hy'
        · exact hb
        · exact h1 y hy'
      · rw [h2]
        simp [Bool.or_assoc]

/-- When every segment that would be entered while collecting — the start id
occurred before it, the end id did not — is loaded, the month loop processes
exactly the flattened asset list (segments reached while not collecting are
scanned whether loaded or not, just as in the source). -/
theorem scanMonths_span_loaded (a b : String) (months : List Segment) (c : Bool)
    (r : List Asset)
    (h : ∀ j (hj : j < months.length),
      (c = true ∨
        ((months.take j).flatMap Segment.assets).any (fun x => x.id = a) = true) →
      (∀ x ∈ (months.take j).flatMap Segment.assets, ¬x.id = b) →
      (months.get ⟨j, hj⟩).isLoaded = true) :
    scanMonths a b months c r =
      (match scanAssets a b (months.flatMap Segment.assets) c r with
       | .inl res => res
       | .inr (_, res) => res) := by
  induction months generalizing c r with
  | nil => simp [scanMonths, scanAssets]
  | cons m ms ih =>
    have hcm : ¬(c = true ∧ ¬m.isLoaded = true) := by
      rintro ⟨hc, hnl⟩
      exact hnl (h 0 (by simp) (Or.inl hc) (by simp))
    rw [scanMonths, List.flatMap_cons, scanAssets_append, if_neg hcm]
    cases hres : scanAssets a b m.assets c r with
    | inl res => rfl
    | inr p =>
      obtain ⟨hb1, hc1⟩ := scanAssets_inr a b m.assets c r p hres
      refine ih p.1 p.2 ?_
      intro j hj hcol hnb
      have hj' : j + 1 < (m :: ms).length := by simpa using Nat.succ_lt_succ hj
      have hcol' : c = true ∨
          (((m :: ms).take (j + 1)).flatMap Segment.assets).any
            (fun x => x.id = a) = true := by
        rcases hcol with hc' | hany
        · rw [hc1] at hc'
          rcases Bool.or_eq_true_iff.mp hc' with hcc | hma
          · exact Or.inl hcc
          · refine Or.inr ?_
            rw [List.take_succ_cons, List.flatMap_cons, List.any_append]
            simp [hma]
        · refine Or.inr ?_
          rw [List.take_succ_cons, List.flatMap_cons, List.any_append]
          simp [hany]
      have hnb' : ∀ x ∈ ((m :: ms).take (j + 1)).flatMap Segment.assets,
          ¬x.id = b := by
        intro x hx
        rw [List.take_succ_cons, List.flatMap_cons, List.mem_append] at hx
        rcases hx with hx | hx
        · exact hb1 x hx
        · exact hnb x hx
      have := h (j + 1) hj' hcol' hnb'
      simpa using this

/-- A block holding no asset with the end id never exits the scan early; it
only extends the collecting flag by whether the start id occurs in it. -/
theorem scanAssets_no_end (a b : String) (l : List Asset) (c : Bool) (r : List Asset)
    (hb : ∀ x ∈ l, ¬x.id = b) :
    ∃ s, scanAssets a b l c r = .inr (c || l.any (fun x => x.id = a), s) := by
  induction l generalizing c r with
  | nil => exact ⟨r, by simp [scanAssets]⟩
  | cons x xs ih =>
    have hxb : ¬x.id = b := hb x (by simp)
    have hxs : ∀ y ∈ xs, ¬y.id = b := fun y hy => hb y (by simp [hy])
    obtain ⟨s, hs⟩ := ih (c := c || decide (x.id = a))
      (r := if (c || decide (x.id = a)) = true then r ++ [x] else r) hxs
    refine ⟨s, ?_⟩
    simp only [scanAssets]
    rw [if_neg hxb, hs]
    simp [Bool.or_assoc]

/-- If some segment is unloaded while the scan is collecting when it is
reached — the start id occurred in the segments before it and the end id did
not — the whole scan returns the empty list. -/
theorem scanMonths_unloaded (a b : String) (months : List Segment) (c : Bool) (r : List Asset)
    (j : ℕ) (hj : j < months.length)
    (hload : (months.get ⟨j, hj⟩).isLoaded = false)
    (hstart : c = true ∨
      ((months.take j).flatMap Segment.assets).any (fun x => x.id = a) = true)
    (hend : ∀ x ∈ (months.take j).flatMap Segment.assets, ¬x.id = b) :
    scanMonths a b months c r = [] := by
  induction months generalizing c r j with
  | nil => exact absurd hj (by simp)
  | cons m ms ih =>
    cases j with
    | zero =>
      have hc : c = true := by simpa using hstart
      have hm : m.isLoaded = false := by simpa using hload
      rw [scanMonths, if_pos (by simp [hc, hm] : c = true ∧ ¬m.isLoaded = true)]
    | succ j' =>
      have hmb : ∀ x ∈ m.assets, ¬x.id = b := by
        intro x hx
        exact hend x (by simp [List.take_succ_cons, hx])
      have hmsb : ∀ x ∈ (ms.take j').flatMap Segment.assets, ¬x.id = b := by
        intro x hx
        exact hend x (by simp [List.take_succ_cons, hx])
      by_cases hcm : c = true ∧ ¬m.isLoaded = true
      · rw [scanMonths, if_pos hcm]
      · obtain ⟨s, hs⟩ := scanAssets_no_end a b m.assets c r hmb
        rw [scanMonths, if_neg hcm, hs]
        refine ih _ _ j' (by simpa using hj) (by simpa using hload) ?_ hmsb
        rcases hstart with hc | hany
        · exact Or.inl (by simp [hc])
        · rw [List.take_succ_cons, List.flatMap_cons, List.any_append] at hany
          rcases Bool.or_eq_true_iff.mp hany with h1 | h2
          · exact Or.inl (by simp [h1])
          · exact Or.inr h2

/-- C2 counterexample: in a manager whose single segment is fully loaded and
holds assets "a1", "a2", `retrieveLoadedRange` from "a1" to the absent id
"zz" returns a non-empty result that never reaches the end descriptor —
neither the empty list nor "exactly the items from a to b inclusive", even
though no spanned segment is unloaded. -/
theorem C2_counterexample :
    (∀ m ∈ (mkState [mkSegment ["a1", "a2"]]).months, m.isLoaded = true) ∧
    retrieveLoadedRange (mkState [mkSegment ["a1", "a2"]]) "a1" "zz" ≠ [] ∧
    ∀ x ∈ retrieveLoadedRange (mkState [mkSegment ["a1", "a2"]]) "a1" "zz",
      ¬x.id = "zz" := by
  refine ⟨by decide, by decide, by decide⟩

/-- C2 (amended): `retrieveLoadedRange` returns `[]` whenever a spanned
segment — one reached after the start id has been seen and before the end id
has — is not fully loaded; otherwise (every such spanned segment is loaded)
it returns the contiguous run from the first occurrence of the start id
through the first occurrence of the end id at or after it (empty when the
start id is absent or the end id occurs only strictly before it), **except**
that when the end id does not occur at or after the start id the result is
every item from the start id to the end of the timeline rather than the
empty list. -/
theorem C2_retrieveLoadedRange (s : ManagerState) (startId endId : String) :
    ((∃ j, ∃ hj : j < s.months.length,
        (s.months.get ⟨j, hj⟩).isLoaded = false ∧
        ((s.months.take j).flatMap Segment.assets).any (fun x => x.id = startId) = true ∧
        ∀ x ∈ (s.months.take j).flatMap Segment.assets, ¬x.id = endId) →
      retrieveLoadedRange s startId endId = []) ∧
    ((∀ j (hj : j < s.months.length),
        ((s.months.take j).flatMap Segment.assets).any (fun x => x.id = startId) = true →
        (∀ x ∈ (s.months.take j).flatMap Segment.assets, ¬x.id = endId) →
        (s.months.get ⟨j, hj⟩).isLoaded = true) →
      retrieveLoadedRange s startId endId = refRange (allAssets s) startId endId) := by
  constructor
  · rintro ⟨j, hj, hload, hstart, hend⟩
    exact scanMonths_unloaded _ _ _ false [] j hj hload (Or.inr hstart) hend
  · intro h
    have h' : ∀ j (hj : j < s.months.length),
        (false = true ∨
          ((s.months.take j).flatMap Segment.assets).any
            (fun x => x.id = startId) = true) →
        (∀ x ∈ (s.months.take j).flatMap Segment.assets, ¬x.id = endId) →
        (s.months.get ⟨j, hj⟩).isLoaded = true := by
      intro j hj hcol hnb
      rcases hcol with hf | hany
      · exact absurd hf (by simp)
      · exact h j hj hany hnb
    rw [retrieveLoadedRange, scanMonths_span_loaded _ _ _ _ _ h', scanAssets_idle,
      refRange, allAssets]
    cases hfa : (s.months.flatMap Segment.assets).findIdx? (fun x => decide (x.id = startId)) with
    | none =>
      cases hfb : (s.months.flatMap Segment.assets).findIdx? (fun x => decide (x.id = endId)) with
      | none => rfl
      | some j => rfl
    | some i =>
      cases hfb : (s.months.flatMap Segment.assets).findIdx? (fun x => decide (x.id = endId)) with
      | none => simp
      | some j => by_cases hji : j < i <;> simp [hji]

/-- An unloaded, still-empty segment. -/
def unloadedSegment : Segment :=
  { viewerAssets := []
    isLoaded := false
    height := 0
    top := 0
    intersecting := false
    actuallyIntersecting := false }

/-- C2 witness: the spanned-segments-loaded conclusion applied to a
mixed-load manager — a loaded segment holding "a", "b", "c" followed by an
unloaded one. The unloaded segment lies outside the span from "a" to "b"
(the scan returns at "b" before reaching it), so the hypothesis holds and
the result agrees with the reference range on the flattened timeline. -/
theorem C2_witness :
    retrieveLoadedRange (mkState [mkSegment ["a", "b", "c"], unloadedSegment]) "a" "b" =
      refRange (allAssets (mkState [mkSegment ["a", "b", "c"], unloadedSegment]))
        "a" "b" :=
  (C2_retrieveLoadedRange (mkState [mkSegment ["a", "b", "c"], unloadedSegment])
    "a" "b").2 (by decide)

/-! ## C5 — `removeAssets` lemmas -/

/-- The reverse-index splice scan computes, in one pass, the wrappers whose
ids are not in the input set (in display order) and the ids of the removed
wrappers (in reverse display order, as pushed by the descending loop). -/
theorem removeScan_eq (ids : List String) (l : List ViewerAsset) :
    removeScan ids l =
      (l.filter (fun v => !decide (v.asset.id ∈ ids)),
        ((l.filter (fun v => decide (v.asset.id ∈ ids))).reverse).map
          (fun v => v.asset.id)) := by
  induction l with
  | nil => simp [removeScan]
  | cons v rest ih =>
    by_cases hv : v.asset.id ∈ ids
    · simp [removeScan, ih, hv]
    · simp [removeScan, ih, hv]

/-- One step of the per-segment loop of `removeAssets`. -/
theorem removeLoop_cons (ids : List String) (m : Segment) (ms : List Segment)
    (acc : List String) :
    removeLoop ids (m :: ms) acc =
      ({ m with viewerAssets := (removeScan ids m.viewerAssets).1 } ::
          (removeLoop ids ms (acc ++ (removeScan ids m.viewerAssets).2)).1,
        (removeLoop ids ms (acc ++ (removeScan ids m.viewerAssets).2)).2.1,
        decide ((acc ++ (removeScan ids m.viewerAssets).2).length > 0) ::
          (removeLoop ids ms (acc ++ (removeScan ids m.viewerAssets).2)).2.2) :=
  rfl

/-- After the loop every surviving wrapper in every segment fails the id
test. -/
theorem removeLoop_months (ids : List String) (months : List Segment)
    (acc : List String) :
    (removeLoop ids months acc).1 =
      months.map (fun m =>
        { m with
          viewerAssets := m.viewerAssets.filter (fun v => !decide (v.asset.id ∈ ids)) }) := by
  induction months generalizing acc with
  | nil => simp [removeLoop]
  | cons m ms ih => simp [removeLoop_cons, removeScan_eq, ih]

/-- The accumulated removed ids after the loop: per segment, the matching
wrappers' ids in reverse display order, segments in order. -/
theorem removeLoop_removed (ids : List String) (months : List Segment)
    (acc : List String) :
    (removeLoop ids months acc).2.1 =
      acc ++ months.flatMap (fun m =>
        ((m.viewerAssets.filter (fun v => decide (v.asset.id ∈ ids))).reverse).map
          (fun v => v.asset.id)) := by
  induction months generalizing acc with
  | nil => simp [removeLoop]
  | cons m ms ih => simp [removeLoop_cons, removeScan_eq, ih]

/-- Any segment that lost an item gets its layout flag set (the loop lays
out whenever the global removed list is non-empty, which it is from that
segment on). -/
theorem removeLoop_laid (ids : List String) (months : List Segment)
    (acc : List String) :
    ∀ i (hi : i < months.length) (hL : i < (removeLoop ids months acc).2.2.length),
      (∃ v ∈ (months.get ⟨i, hi⟩).viewerAssets, v.asset.id ∈ ids) →
      (removeLoop ids months acc).2.2.get ⟨i, hL⟩ = true := by
  induction months generalizing acc with
  | nil =>
    intro i hi
    exact absurd hi (by simp)
  | cons m ms ih =>
    intro i hi hL hex
    cases i with
    | zero =>
      obtain ⟨v, hv, hvid⟩ := hex
      have hv' : v ∈ m.viewerAssets := by simpa using hv
      have hmem : v ∈ m.viewerAssets.filter (fun v => decide (v.asset.id ∈ ids)) :=
        List.mem_filter.mpr ⟨hv', by simpa using hvid⟩
      have hpos : 0 < (m.viewerAssets.filter (fun v => decide (v.asset.id ∈ ids))).length :=
        List.length_pos.mpr (List.ne_nil_of_mem hmem)
      simp only [removeLoop_cons, removeScan_eq, List.get]
      rw [decide_eq_true]
      simp only [List.length_append, List.length_map, List.length_reverse]
      omega
    | succ k =>
      have hk : k < ms.length := by simpa using hi
      have hL' : k < (removeLoop ids ms (acc ++ (removeScan ids m.viewerAssets).2)).2.2.length := by
        have := hL
        simp only [removeLoop_cons, List.length_cons] at this
        omega
      have hex' : ∃ v ∈ (ms.get ⟨k, hk⟩).viewerAssets, v.asset.id ∈ ids := by
        simpa using hex
      have := ih (acc ++ (removeScan ids m.viewerAssets).2) k hk hL' hex'
      simpa [removeLoop_cons, List.get] using this

/-- C5: `removeAssets` returns exactly the input ids found in no segment, in
input order; afterwards no segment retains any wrapper whose id was in the
input; the removed ids are recorded per segment in reverse index order
(segments in order); and every segment that lost an item had its layout
recomputed. -/
theorem C5_removeAssets (s : ManagerState) (assetIds : List String) :
    (removeAssets s assetIds).notFound =
      assetIds.filter (fun id =>
        decide (∀ m ∈ s.months, ∀ v ∈ m.viewerAssets, ¬v.asset.id = id)) ∧
    (∀ m ∈ (removeAssets s assetIds).months, ∀ v ∈ m.viewerAssets,
      ¬v.asset.id ∈ assetIds) ∧
    (removeAssets s assetIds).removedIds =
      s.months.flatMap (fun m =>
        ((m.viewerAssets.filter (fun v => decide (v.asset.id ∈ assetIds))).reverse).map
          (fun v => v.asset.id)) ∧
    (∀ i (hi : i < s.months.length)
        (hL : i < (removeAssets s assetIds).laidOut.length),
      (∃ v ∈ (s.months.get ⟨i, hi⟩).viewerAssets, v.asset.id ∈ assetIds) →
      (removeAssets s assetIds).laidOut.get ⟨i, hL⟩ = true) := by
  refine ⟨?_, ?_, ?_, ?_⟩
  · show assetIds.filter _ = _
    refine List.filter_congr ?_
    intro id hid
    rw [decide_eq_decide]
    have hrem : (removeLoop assetIds s.months []).2.1 =
        s.months.flatMap (fun m =>
          ((m.viewerAssets.filter (fun v => decide (v.asset.id ∈ assetIds))).reverse).map
            (fun v => v.asset.id)) := by
      simpa using removeLoop_removed assetIds s.months []
    rw [hrem]
    have hmem : id ∈ s.months.flatMap (fun m =>
        ((m.viewerAssets.filter (fun v => decide (v.asset.id ∈ assetIds))).reverse).map
          (fun v => v.asset.id)) ↔
        ∃ m ∈ s.months, ∃ v ∈ m.viewerAssets, v.asset.id = id := by
      simp only [List.mem_flatMap, List.mem_map, List.mem_reverse, List.mem_filter]
      constructor
      · rintro ⟨m, hm, v, ⟨hvin, _⟩, rfl⟩
        exact ⟨m, hm, v, hvin, rfl⟩
      · rintro ⟨m, hm, v, hvin, rfl⟩
        exact ⟨m, hm, v, ⟨hvin, by simpa using hid⟩, rfl⟩
    rw [hmem]
    push_neg
    simp
  · intro m hm v hv
    have hmonths : (removeAssets s assetIds).months =
        s.months.map (fun m =>
          { m with
            viewerAssets := m.viewerAssets.filter (fun v => !decide (v.asset.id ∈ assetIds)) }) :=
      removeLoop_months assetIds s.months []
    rw [hmonths] at hm
    obtain ⟨m₀, _, rfl⟩ := List.mem_map.mp hm
    have := (List.mem_filter.mp hv).2
    simpa using this
  · simpa using removeLoop_removed assetIds s.months []
  · intro i hi hL hex
    exact removeLoop_laid assetIds s.months [] i hi hL hex

/-- C5 witness: removing ids "b" (present in the first segment) and "x"
(present nowhere) from a two-segment manager — the first segment lost an
item, so its layout flag is set. -/
theorem C5_witness :
    (removeAssets (mkState [mkSegment ["a", "b"], mkSegment ["c"]])
        ["b", "x"]).laidOut.get ⟨0, by decide⟩ = true :=
  (C5_removeAssets (mkState [mkSegment ["a", "b"], mkSegment ["c"]]) ["b", "x"]).2.2.2
    0 (by decide) (by decide) (by decide)

end Photostream
